import Mathlib

set_option autoImplicit false

/-!
Shallow embedding of the sync-orchestration core of the Hiqma edge hub
(`src/sync/optimized-sync.service.ts`, `src/devices/devices.service.ts`,
`src/students/students.service.ts`, `src/analytics/hub-analytics.service.ts`)
together with proofs about it.

Conventions of the embedding:
* JavaScript timestamps (`Date`) are modelled as `Int` epoch values; a nullable
  column is an `Option Int`.
* JavaScript truthiness on strings (`null`/`undefined`/`""` falsy) is modelled
  by the `jsOrS`/`jsOrOpt`/`jsUndefS`/`jsTruthy` helpers below.
* Inbound payload records arrive as untyped JSON in the source; they are
  modelled as records with `Option` fields (`none` = absent/null).  A field of
  the wrong primitive type is not representable, so the validators' `typeof`
  checks are omitted; all other validator checks are carried over.
* Floating-point percentage arithmetic in the content-cleanup safety gate is
  modelled over `ℚ`; the operand magnitudes involved (row counts) make the
  float and rational comparisons agree.
* Per-item storage operations that the source issues concurrently inside one
  batch are folded sequentially, in batch order; the claims treated here
  concern batches whose items touch pairwise distinct keys, for which the two
  schedulings coincide.
-/

namespace EdgeHub

/-- JS `a || b` where `a` is a nullable string and the result must be a string:
`null`, `undefined` and `""` are falsy. -/
def jsOrS : Option String → String → String
  | none, b => b
  | some s, b => if s = "" then b else s

/-- JS `a || b` where both sides are nullable strings. -/
def jsOrOpt : Option String → Option String → Option String
  | none, b => b
  | some s, b => if s = "" then b else some s

/-- JS `a || undefined` for a nullable string (`""` collapses to `undefined`). -/
def jsUndefS : Option String → Option String
  | none => none
  | some s => if s = "" then none else some s

/-- JS `a || undefined` for a nullable number (`0` is falsy and collapses). -/
def jsUndefInt : Option Int → Option Int
  | none => none
  | some n => if n = 0 then none else some n

/-- JS truthiness of a nullable string. -/
def jsTruthy : Option String → Bool
  | none => false
  | some s => s ≠ ""

/-- Replace the first element satisfying `p` by its image under `f`
(TypeORM mutates the single row found by `findOne`/`find`). -/
def updateFirstBy {α : Type} (p : α → Bool) (f : α → α) : List α → List α
  | [] => []
  | a :: t => if p a then f a :: t else a :: updateFirstBy p f t

/-! ## Data model: content -/

/-- Row of the `local_content` table (entity `LocalContent`).  The JSON-string
columns `targetCountries`/`comprehensionQuestions` are modelled structurally,
encoding happening only at the storage boundary. -/
structure LocalContent where
  id : Nat
  cloudId : Option String
  title : String
  description : String
  htmlContent : String
  category : String
  language : String
  originalLanguage : Option String
  author : String
  ageGroup : String
  targetCountries : List String
  comprehensionQuestions : List String
  contributorId : Option String
  images : String
  coverImageUrl : String
  cachedAt : Int
  updatedAt : Option Int
deriving DecidableEq

/-- One item of the inbound cloud content batch.  The optional-chaining
accessors of the source (`content.contentCategories?.[0]?.category?.name`,
`content.contentAuthors?.[0]?.author?.name`, `content.ageGroup?.name ||
content.ageGroup`) are modelled as the lists/options of the resolved names.
`updatedAt`/`createdAt` hold the parsed epoch of a present date string. -/
structure CloudContentItem where
  id : String
  title : String
  description : Option String
  htmlContent : String
  contentCategoryNames : List String
  categoryNames : List String
  language : Option String
  originalLanguage : Option String
  contentAuthorNames : List String
  author : Option String
  ageGroup : Option String
  targetCountries : List String
  comprehensionQuestions : List String
  contributorId : Option String
  images : Option String
  coverImageUrl : Option String
  createdAt : Option Int
  updatedAt : Option Int
deriving DecidableEq

/-! ## Validators -/

/-- Result shape `{ isValid, errors }` shared by the three validators. -/
structure ValidationResult where
  isValid : Bool
  errors : List String
deriving DecidableEq

/-- The regex `^[A-Z0-9]{n,m}$` of the device/student code checks. -/
def codeFormatOk (lo hi : Nat) (s : String) : Bool :=
  lo ≤ s.length && s.length ≤ hi &&
    s.toList.all (fun ch => ('A' ≤ ch && ch ≤ 'Z') || ('0' ≤ ch && ch ≤ '9'))

/-- Untyped inbound device record, as seen by `validateDevicesData`. -/
structure RawDevice where
  id : Option String
  deviceCode : Option String
  hubId : Option String
  name : Option String
  status : Option String
deriving DecidableEq

/-- Errors `validateDevicesData` accumulates for the device at index `i`. -/
def deviceErrorsAt (i : Nat) (d : RawDevice) : List String :=
  (if jsTruthy d.id then [] else [s!"Device at index {i} missing required field: id"]) ++
  (if jsTruthy d.deviceCode then [] else [s!"Device at index {i} missing required field: deviceCode"]) ++
  (if jsTruthy d.hubId then [] else [s!"Device at index {i} missing required field: hubId"]) ++
  (match d.status with
    | none => []
    | some st =>
        if st ≠ "" && !(["active", "inactive", "pending", "registered"].contains st) then
          [s!"Device at index {i} has invalid status: {st}"]
        else []) ++
  (match d.deviceCode with
    | none => []
    | some c =>
        if c ≠ "" && !(codeFormatOk 6 8 c) then
          [s!"Device at index {i} has invalid deviceCode format: {c}"]
        else [])

/-- `validateDevicesData`: accumulate every violation over the batch. -/
def validateDevicesData (devices : List RawDevice) : ValidationResult :=
  let errors := (devices.enum.map fun p => deviceErrorsAt p.1 p.2).flatten
  { isValid := errors.length = 0, errors := errors }

/-- Untyped inbound student record, as seen by `validateStudentsData`. -/
structure RawStudent where
  id : Option String
  studentCode : Option String
  hubId : Option String
  firstName : Option String
  lastName : Option String
  grade : Option String
  age : Option Int
  metadata : Option String
  status : Option String
deriving DecidableEq

/-- Errors `validateStudentsData` accumulates for the student at index `i`.
The age guard mirrors `student.age && (... < 3 || ... > 18)`: an age of `0`
is falsy in JS and so is never reported. -/
def studentErrorsAt (i : Nat) (st : RawStudent) : List String :=
  (if jsTruthy st.id then [] else [s!"Student at index {i} missing required field: id"]) ++
  (if jsTruthy st.studentCode then [] else [s!"Student at index {i} missing required field: studentCode"]) ++
  (if jsTruthy st.hubId then [] else [s!"Student at index {i} missing required field: hubId"]) ++
  (match st.age with
    | none => []
    | some a =>
        if a ≠ 0 && (a < 3 || 18 < a) then
          [s!"Student at index {i} has invalid age (must be 3-18)"]
        else []) ++
  (match st.status with
    | none => []
    | some s =>
        if s ≠ "" && !(["active", "inactive"].contains s) then
          [s!"Student at index {i} has invalid status: {s}"]
        else []) ++
  (match st.studentCode with
    | none => []
    | some c =>
        if c ≠ "" && !(codeFormatOk 4 6 c) then
          [s!"Student at index {i} has invalid studentCode format: {c}"]
        else [])

/-- `validateStudentsData`: accumulate every violation over the batch. -/
def validateStudentsData (students : List RawStudent) : ValidationResult :=
  let errors := (students.enum.map fun p => studentErrorsAt p.1 p.2).flatten
  { isValid := errors.length = 0, errors := errors }

/-- Errors `validateContentData` accumulates for the item at index `i`
(presence of id/title/htmlContent and the 1 MB body cap; the `Date.parse`
checks hold vacuously for representable items, whose dates are pre-parsed). -/
def contentErrorsAt (i : Nat) (c : CloudContentItem) : List String :=
  (if c.id ≠ "" then [] else [s!"Content at index {i} missing required field: id"]) ++
  (if c.title ≠ "" then [] else [s!"Content at index {i} missing required field: title"]) ++
  (if c.htmlContent ≠ "" then [] else [s!"Content at index {i} missing required field: htmlContent"]) ++
  (if c.htmlContent ≠ "" && 1000000 < c.htmlContent.length then
    [s!"Content at index {i} exceeds size limit"] else [])

/-- `validateContentData`: accumulate every violation over the batch. -/
def validateContentData (content : List CloudContentItem) : ValidationResult :=
  let errors := (content.enum.map fun p => contentErrorsAt p.1 p.2).flatten
  { isValid := errors.length = 0, errors := errors }

/-! ## Content reconciler (`processBatch` of the sync service) -/

/-- The remote timestamp used for comparison:
`content.updatedAt ? new Date(content.updatedAt) : new Date()`. -/
def contentUpdatedAtOf (c : CloudContentItem) (now : Int) : Int :=
  c.updatedAt.getD now

/-- The stored timestamp used for comparison:
`existing.updatedAt || existing.cachedAt`. -/
def storedUpdatedAt (r : LocalContent) : Int :=
  r.updatedAt.getD r.cachedAt

/-- Field assignments of the in-place update branch of `processBatch`. -/
def contentUpdateFields (c : CloudContentItem) (now : Int) (r : LocalContent) : LocalContent :=
  { r with
    title := c.title
    description := jsOrS c.description ""
    htmlContent := c.htmlContent
    category := jsOrS c.contentCategoryNames.head? (jsOrS c.categoryNames.head? "General")
    language := jsOrS c.language (jsOrS c.originalLanguage "en")
    originalLanguage := c.originalLanguage
    author := jsOrS c.contentAuthorNames.head? (jsOrS c.author "")
    ageGroup := jsOrS c.ageGroup ""
    targetCountries := c.targetCountries
    comprehensionQuestions := c.comprehensionQuestions
    contributorId := c.contributorId
    images := jsOrS c.images ""
    coverImageUrl := jsOrS c.coverImageUrl ""
    updatedAt := some (contentUpdatedAtOf c now) }

/-- Row built by the insert branch of `processBatch`; its stored `updatedAt`
is `new Date(content.updatedAt || content.createdAt)` (an item carrying
neither date stores an invalid timestamp, modelled as `none`). -/
def insertedContent (c : CloudContentItem) (now : Int) (nid : Nat) : LocalContent :=
  { contentUpdateFields c now
      { id := nid, cloudId := some c.id, title := "", description := "", htmlContent := ""
        category := "", language := "", originalLanguage := none, author := "", ageGroup := ""
        targetCountries := [], comprehensionQuestions := [], contributorId := none
        images := "", coverImageUrl := "", cachedAt := now, updatedAt := none } with
    updatedAt := c.updatedAt <|> c.createdAt }

/-- Accumulated state of one `processBatch` run: the content table, the next
fresh primary key, the processed counter and the error strings. -/
structure ContentBatchState where
  rows : List LocalContent
  nextId : Nat
  processed : Nat
  errors : List String
deriving DecidableEq

/-- The `findOne({ where: { cloudId: content.id } })` predicate. -/
def byCloudId (cid : String) (r : LocalContent) : Bool := r.cloudId == some cid

/-- One item of `processBatch`: an item without an id is recorded as an error;
a known remote id is updated in place only when strictly newer (a stale item
still counts as processed); an unknown id is inserted. -/
def processContentItem (now : Int) (st : ContentBatchState) (c : CloudContentItem) : ContentBatchState :=
  if c.id = "" then
    { st with errors := st.errors ++ [s!"Invalid content item received"] }
  else
    match st.rows.find? (byCloudId c.id) with
    | some existing =>
        if storedUpdatedAt existing < contentUpdatedAtOf c now then
          { st with
            rows := updateFirstBy (byCloudId c.id) (contentUpdateFields c now) st.rows
            processed := st.processed + 1 }
        else
          { st with processed := st.processed + 1 }
    | none =>
        { st with
          rows := st.rows ++ [insertedContent c now st.nextId]
          nextId := st.nextId + 1
          processed := st.processed + 1 }

/-- `processBatch` over the whole inbound list.  The source slices the list
into chunks of 10 and runs the chunks in order, so the sequential fold over
the full list is the same schedule for distinct-id batches. -/
def processBatch (batch : List CloudContentItem) (now : Int) (st : ContentBatchState) : ContentBatchState :=
  batch.foldl (processContentItem now) st

/-! ## Content cleanup and its safety gate -/

/-- `content.cloudId && !cloudContentIds.has(content.cloudId)`: the row is
slated for removal (note `""` is falsy, so an empty `cloudId` never is). -/
def isRemovedContent (cloudIds : List String) (r : LocalContent) : Bool :=
  match r.cloudId with
  | none => false
  | some s => s ≠ "" && !(cloudIds.contains s)

/-- The safety check of `cleanupRemovedContent`: more than 50% of local rows
slated for removal while the cloud batch is under 80% of the local count. -/
def contentSafetyGateTrips (removedCount localCount cloudCount : Nat) : Prop :=
  ((removedCount : ℚ) / (localCount : ℚ)) * 100 > 50 ∧
    (cloudCount : ℚ) < (localCount : ℚ) * (8 / 10)

instance (a b c : Nat) : Decidable (contentSafetyGateTrips a b c) := by
  unfold contentSafetyGateTrips; infer_instance

/-- `cleanupRemovedContent`: delete local rows whose `cloudId` is absent from
the cloud batch — except that an empty batch, or a tripped safety gate, aborts
the step with the table untouched. -/
def cleanupRemovedContent (cloudContent : List CloudContentItem) (localContent : List LocalContent) : List LocalContent :=
  if cloudContent.length = 0 then localContent
  else
    let cloudIds := cloudContent.map (·.id)
    let removed := localContent.filter (isRemovedContent cloudIds)
    if removed.length = 0 then localContent
    else if contentSafetyGateTrips removed.length localContent.length cloudContent.length then
      localContent
    else
      localContent.filter (fun r => !(isRemovedContent cloudIds r))

/-- `syncContent` at the level of the stored table: validation, `processBatch`,
then cleanup only if at least one item was processed.  Returns the resulting
table and the sub-result's `success` flag. -/
def syncContent (content : List CloudContentItem) (now : Int) (fresh : Nat) (rows : List LocalContent) : List LocalContent × Bool :=
  if content.length = 0 then (rows, true)
  else if !(validateContentData content).isValid then (rows, false)
  else
    let st := processBatch content now { rows := rows, nextId := fresh, processed := 0, errors := [] }
    if 0 < st.processed then (cleanupRemovedContent content st.rows, true)
    else (st.rows, false)

/-! ## Concrete safety-gate scenario: 100 local rows, 10 disjoint cloud items -/

/-- Local content row number `k` of the scenario, linked to cloud id `L<k>`. -/
def demoLocalRow (k : Nat) : LocalContent :=
  { id := k, cloudId := some ("L" ++ Nat.repr k), title := "t", description := ""
    htmlContent := "h", category := "General", language := "en", originalLanguage := none
    author := "", ageGroup := "", targetCountries := [], comprehensionQuestions := []
    contributorId := none, images := "", coverImageUrl := "", cachedAt := 0, updatedAt := some 0 }

/-- The 100 locally stored content rows of the scenario. -/
def demoLocal100 : List LocalContent := (List.range 100).map demoLocalRow

/-- Cloud batch item number `k` of the scenario, with remote id `R<k>`. -/
def demoCloudItem (k : Nat) : CloudContentItem :=
  { id := "R" ++ Nat.repr k, title := "t", description := none, htmlContent := "h"
    contentCategoryNames := [], categoryNames := [], language := none, originalLanguage := none
    contentAuthorNames := [], author := none, ageGroup := none, targetCountries := []
    comprehensionQuestions := [], contributorId := none, images := none, coverImageUrl := none
    createdAt := none, updatedAt := some 5 }

/-- The 10-item cloud batch of the scenario, disjoint from the local rows. -/
def demoCloud10 : List CloudContentItem := (List.range 10).map demoCloudItem

/-- Shared abort lemma: an empty batch or a tripped gate leaves the table
untouched. -/
theorem cleanupRemovedContent_abort (cloud : List CloudContentItem) (S : List LocalContent)
    (h : cloud = [] ∨
      contentSafetyGateTrips (S.filter (isRemovedContent (cloud.map (·.id)))).length
        S.length cloud.length) :
    cleanupRemovedContent cloud S = S := by
  unfold cleanupRemovedContent
  rcases h with h | h
  · simp [h]
  · by_cases hlen : cloud.length = 0
    · simp [hlen]
    · by_cases hrem : (S.filter (isRemovedContent (cloud.map (·.id)))).length = 0
      · simp [hlen, hrem]
      · simp [hlen, hrem, h]

/-- The table after `processBatch` in the scenario: the 100 original rows with
the 10 fresh inserts appended. -/
def demoRows110 : List LocalContent :=
  demoLocal100 ++ (List.range 10).map (fun k => insertedContent (demoCloudItem k) 7 (1000 + k))

/-- C1: content cleanup deletes nothing when the incoming batch is empty or
when the safety gate trips (more than 50% of local content slated for removal
while the batch is under 80% of the local count); in particular, with 100
local rows and a disjoint 10-item batch, every local row survives content
reconciliation. -/
theorem cleanupRemovedContent_safetyGate :
    (∀ (cloud : List CloudContentItem) (S : List LocalContent),
        cloud = [] ∨
          contentSafetyGateTrips (S.filter (isRemovedContent (cloud.map (·.id)))).length
            S.length cloud.length →
        cleanupRemovedContent cloud S = S)
    ∧ (∀ r ∈ demoLocal100, r ∈ (syncContent demoCloud10 7 1000 demoLocal100).1) := by
  refine ⟨fun cloud S h => cleanupRemovedContent_abort cloud S h, ?_⟩
  intro r hr
  have hst : processBatch demoCloud10 7
      { rows := demoLocal100, nextId := 1000, processed := 0, errors := [] }
      = { rows := demoRows110, nextId := 1010, processed := 10, errors := [] } := by
    decide
  have h1 : syncContent demoCloud10 7 1000 demoLocal100
      = (cleanupRemovedContent demoCloud10 demoRows110, true) := by
    simp only [syncContent, hst]
    rw [if_neg (by decide), if_neg (by decide), if_pos (by decide)]
  have hgate : contentSafetyGateTrips
      (demoRows110.filter (isRemovedContent (demoCloud10.map (·.id)))).length
      demoRows110.length demoCloud10.length := by
    have hf : (demoRows110.filter (isRemovedContent (demoCloud10.map (·.id)))).length = 100 := by
      decide
    have hl : demoRows110.length = 110 := by decide
    have hc : demoCloud10.length = 10 := by decide
    rw [hf, hl, hc]
    unfold contentSafetyGateTrips
    norm_num
  have h2 : cleanupRemovedContent demoCloud10 demoRows110 = demoRows110 :=
    cleanupRemovedContent_abort _ _ (Or.inr hgate)
  rw [h1]
  simp only [h2]
  exact List.mem_append_left _ hr

/-- Witness for C1 instantiating the gate hypothesis of the first conjunct. -/
theorem cleanupRemovedContent_safetyGate_witness :
    cleanupRemovedContent [] [demoLocalRow 0] = [demoLocalRow 0] :=
  cleanupRemovedContent_safetyGate.1 [] [demoLocalRow 0] (Or.inl rfl)

/-- C10: cleanup only ever deletes rows carrying a truthy `cloudId` that is
absent from the cloud batch; a row whose `cloudId` is unset always survives. -/
theorem cleanupRemovedContent_onlyLinkedRows
    (cloud : List CloudContentItem) (S : List LocalContent) (r : LocalContent) (hr : r ∈ S) :
    (r ∉ cleanupRemovedContent cloud S →
      ∃ s, r.cloudId = some s ∧ s ∉ cloud.map (·.id))
    ∧ (r.cloudId = none → r ∈ cleanupRemovedContent cloud S) := by
  constructor
  · intro hout
    unfold cleanupRemovedContent at hout
    by_cases h0 : cloud.length = 0
    · simp [h0] at hout; exact absurd hr hout
    · simp only [h0, if_false] at hout
      by_cases h1 : (S.filter (isRemovedContent (cloud.map (·.id)))).length = 0
      · simp [h1] at hout; exact absurd hr hout
      · simp only [h1, if_false] at hout
        by_cases h2 : contentSafetyGateTrips (S.filter (isRemovedContent (cloud.map (·.id)))).length S.length cloud.length
        · simp [h2] at hout; exact absurd hr hout
        · simp only [h2, if_false] at hout
          have : isRemovedContent (cloud.map (·.id)) r = true := by
            by_contra hno
            exact hout (List.mem_filter.mpr ⟨hr, by simp [hno]⟩)
          unfold isRemovedContent at this
          rcases hcid : r.cloudId with _ | s
          · rw [hcid] at this; simp at this
          · rw [hcid] at this
            simp only [Bool.and_eq_true, Bool.not_eq_true', decide_eq_true_eq] at this
            exact ⟨s, rfl, by simpa using this.2⟩
  · intro hnone
    unfold cleanupRemovedContent
    by_cases h0 : cloud.length = 0
    · simpa [h0] using hr
    · simp only [h0, if_false]
      by_cases h1 : (S.filter (isRemovedContent (cloud.map (·.id)))).length = 0
      · simpa [h1] using hr
      · simp only [h1, if_false]
        by_cases h2 : contentSafetyGateTrips (S.filter (isRemovedContent (cloud.map (·.id)))).length S.length cloud.length
        · simpa [h2] using hr
        · simp only [h2, if_false]
          exact List.mem_filter.mpr ⟨hr, by simp [isRemovedContent, hnone]⟩

/-- Witness for C10 at a concrete table and batch. -/
theorem cleanupRemovedContent_onlyLinkedRows_witness :
    ({ demoLocalRow 3 with cloudId := none } ∈
      cleanupRemovedContent demoCloud10 [{ demoLocalRow 3 with cloudId := none }]) :=
  (cleanupRemovedContent_onlyLinkedRows demoCloud10
    [{ demoLocalRow 3 with cloudId := none }] _ (by simp)).2 rfl

/-- C8: per-item staleness guard of `processBatch`.  For a stored row matched
by remote id, an item carrying a remote `updatedAt` is applied as an in-place
update only when that stamp is strictly after the stored one (falling back to
`cachedAt` when the stored `updatedAt` is null); otherwise the table is left
unchanged and the item still counts as processed, with no error recorded. -/
theorem processContentItem_stalenessGuard
    (now : Int) (st : ContentBatchState) (c : CloudContentItem) (u : Int) (r : LocalContent)
    (hid : c.id ≠ "")
    (hfind : st.rows.find? (byCloudId c.id) = some r)
    (hu : c.updatedAt = some u) :
    (u ≤ storedUpdatedAt r →
      processContentItem now st c = { st with processed := st.processed + 1 })
    ∧ (storedUpdatedAt r < u →
      processContentItem now st c
        = { st with
            rows := updateFirstBy (byCloudId c.id)
              (contentUpdateFields c now) st.rows
            processed := st.processed + 1 }) := by
  have hcu : contentUpdatedAtOf c now = u := by simp [contentUpdatedAtOf, hu]
  constructor
  · intro hle
    simp only [processContentItem, if_neg hid, hfind, hcu]
    rw [if_neg (not_lt.mpr hle)]
  · intro hlt
    simp only [processContentItem, if_neg hid, hfind, hcu]
    rw [if_pos hlt]

/-- Witness for C8: a stale item (remote stamp 3, stored stamp 5) leaves the
table unchanged and is counted as processed. -/
theorem processContentItem_stalenessGuard_witness :
    processContentItem 9
      { rows := [{ demoLocalRow 0 with updatedAt := some 5 }], nextId := 0, processed := 0, errors := [] }
      { demoCloudItem 0 with id := "L0", updatedAt := some 3 }
      = { rows := [{ demoLocalRow 0 with updatedAt := some 5 }], nextId := 0, processed := 1, errors := [] } :=
  (processContentItem_stalenessGuard 9
    { rows := [{ demoLocalRow 0 with updatedAt := some 5 }], nextId := 0, processed := 0, errors := [] }
    { demoCloudItem 0 with id := "L0", updatedAt := some 3 }
    3 { demoLocalRow 0 with updatedAt := some 5 }
    (by decide) (by decide) rfl).1 (by decide)

/-! ## Analytics uploader (`syncAnalyticsToCloud` / `markAsSynced`) -/

/-- Row of the `local_activities` table (entity `LocalActivity`). -/
structure LocalActivity where
  id : String
  sessionId : String
  contentId : String
  deviceId : Option String
  studentId : Option String
  eventType : String
  eventData : Option String
  timeSpent : Option Int
  quizScore : Option Int
  moduleCompleted : Bool
  synced : Bool
  timestamp : Int
deriving DecidableEq

/-- Sub-result shape `{ success, count, errors? }` shared by the four
sub-operations of a sync run. -/
structure SubResult where
  success : Bool
  count : Nat
  errors : List String
deriving DecidableEq

/-- `getUnsyncedAnalytics`: all rows with `synced=false`, ordered oldest
first (the `ORDER BY timestamp ASC` is modelled by an insertion sort). -/
def getUnsyncedAnalytics (db : List LocalActivity) : List LocalActivity :=
  List.insertionSort (fun a b => a.timestamp ≤ b.timestamp)
    (db.filter (fun a => a.synced = false))

/-- `markAsSynced`: one batch update flipping `synced` on every row whose id
is in the submitted list. -/
def markAsSynced (activityIds : List String) (db : List LocalActivity) : List LocalActivity :=
  db.map fun a => if a.id ∈ activityIds then { a with synced := true } else a

/-- `syncAnalyticsToCloud` at the level of the stored rows: no unsynced rows
is a trivial success; a failed push (timeout, non-2xx, network error —
`push = .error msg`) changes nothing and reports the message; a successful
push marks the whole submitted batch synced in one update. -/
def syncAnalyticsToCloud (db : List LocalActivity) (push : Except String Unit) :
    SubResult × List LocalActivity :=
  let unsynced := getUnsyncedAnalytics db
  if unsynced.length = 0 then ({ success := true, count := 0, errors := [] }, db)
  else
    match push with
    | .error e => ({ success := false, count := 0, errors := [e] }, db)
    | .ok _ =>
        ({ success := true, count := (unsynced.map (·.id)).length, errors := [] },
          markAsSynced (unsynced.map (·.id)) db)

/-- C5: the analytics upload is all-or-nothing on the local `synced` flags.
No unsynced rows: trivial success, store untouched.  Failed push: store
untouched, `{success:=false, count:=0, errors:=[msg]}`.  Successful push:
`{success:=true, count:=batch size}` and every stored row ends with
`synced=true` (the batch was exactly the unsynced rows). -/
theorem syncAnalyticsToCloud_allOrNothing (db : List LocalActivity) (push : Except String Unit) :
    (getUnsyncedAnalytics db = [] →
      syncAnalyticsToCloud db push = ({ success := true, count := 0, errors := [] }, db))
    ∧ (∀ e, push = .error e → getUnsyncedAnalytics db ≠ [] →
      syncAnalyticsToCloud db push = ({ success := false, count := 0, errors := [e] }, db))
    ∧ (push = .ok () → getUnsyncedAnalytics db ≠ [] →
      (syncAnalyticsToCloud db push).1
          = { success := true, count := (getUnsyncedAnalytics db).length, errors := [] }
        ∧ ∀ a ∈ (syncAnalyticsToCloud db push).2, a.synced = true) := by
  refine ⟨?_, ?_, ?_⟩
  · intro h
    unfold syncAnalyticsToCloud
    rw [if_pos (by rw [h]; rfl)]
  · intro e he h
    unfold syncAnalyticsToCloud
    rw [if_neg (by simpa using h), he]
  · intro hok h
    have hne : ¬ (getUnsyncedAnalytics db).length = 0 := by simpa using h
    constructor
    · unfold syncAnalyticsToCloud
      rw [if_neg hne, hok]
      simp
    · intro a ha
      unfold syncAnalyticsToCloud at ha
      rw [if_neg hne, hok] at ha
      unfold markAsSynced at ha
      obtain ⟨orig, horig, hmap⟩ := List.mem_map.mp ha
      subst hmap
      by_cases hc : orig.id ∈ (getUnsyncedAnalytics db).map (·.id)
      · rw [if_pos hc]
      · rw [if_neg hc]
        by_contra hfalse
        have hsyncedF : orig.synced = false := by
          cases horig2 : orig.synced
          · rfl
          · exact absurd horig2 hfalse
        have hmemf : orig ∈ db.filter (fun a => a.synced = false) :=
          List.mem_filter.mpr ⟨horig, by simp [hsyncedF]⟩
        have hmemu : orig ∈ getUnsyncedAnalytics db :=
          ((List.perm_insertionSort _ _).mem_iff).mpr hmemf
        exact hc (List.mem_map.mpr ⟨orig, hmemu, rfl⟩)

/-- Concrete activity row used by witnesses. -/
def demoActivity (i : String) (syn : Bool) (ts : Int) : LocalActivity :=
  { id := i, sessionId := "sess", contentId := "c1", deviceId := none, studentId := none
    eventType := "view", eventData := none, timeSpent := none, quizScore := none
    moduleCompleted := false, synced := syn, timestamp := ts }

/-- Witness for C5: a failed push over one unsynced row changes nothing. -/
theorem syncAnalyticsToCloud_allOrNothing_witness :
    syncAnalyticsToCloud [demoActivity "a1" false 4] (.error "HTTP 500")
      = ({ success := false, count := 0, errors := ["HTTP 500"] }, [demoActivity "a1" false 4]) :=
  (syncAnalyticsToCloud_allOrNothing [demoActivity "a1" false 4] (.error "HTTP 500")).2.1
    "HTTP 500" rfl (by decide)

/-! ## Orchestrator: mutual exclusion (`performSync` entry guard) -/

/-- Early-return value of `performSync()` when a sync is already running. -/
def syncAlreadyRunningResult : SubResult × List String :=
  ({ success := false, count := 0, errors := ["Sync already in progress"] }, [])

/-- Entry guard of `performSync()`: `some earlyResult` when the in-memory
`syncInProgress` flag is set, `none` (the run proceeds) otherwise.  The early
result carries `success=false` and `synced=0`. -/
def performSyncGuard (syncInProgress : Bool) : Option (SubResult × List String) :=
  if syncInProgress then some syncAlreadyRunningResult else none

/-- State of the in-memory mutual-exclusion flag, with a ghost counter of the
sync runs currently in flight. -/
structure SyncFlagState where
  syncInProgress : Bool
  inFlight : Nat
deriving DecidableEq

/-- Events touching the flag: a trigger of `performSync()` (scheduled or
manual) and the `finally` block of the active run. -/
inductive SyncEvent
  | trigger
  | finish
deriving DecidableEq

/-- Transition of the flag state.  JS is run-to-completion between `await`
points, so the check and set of `syncInProgress` at the head of
`performSync()` form one atomic step. -/
def syncStep : SyncFlagState → SyncEvent → SyncFlagState
  | s, .trigger =>
      if s.syncInProgress then s
      else { syncInProgress := true, inFlight := s.inFlight + 1 }
  | s, .finish =>
      if s.syncInProgress then { syncInProgress := false, inFlight := s.inFlight - 1 }
      else s

/-- Invariant tying the flag to the ghost in-flight counter. -/
def syncFlagInv (s : SyncFlagState) : Prop :=
  s.inFlight = if s.syncInProgress then 1 else 0

theorem syncStep_preserves_inv (s : SyncFlagState) (e : SyncEvent)
    (h : syncFlagInv s) : syncFlagInv (syncStep s e) := by
  cases e <;> unfold syncStep syncFlagInv <;> unfold syncFlagInv at h <;>
    by_cases hb : s.syncInProgress = true <;> simp_all

theorem syncRun_inv (evs : List SyncEvent) (s : SyncFlagState) (h : syncFlagInv s) :
    syncFlagInv (evs.foldl syncStep s) := by
  induction evs generalizing s with
  | nil => exact h
  | cons e t ih => exact ih _ (syncStep_preserves_inv s e h)

/-- C4: triggering `performSync()` while a sync is running returns the early
result with `success=false` and `synced=0` (no details attached), does not
change the flag state, and along any event sequence from the idle state at
most one sync run is ever in flight. -/
theorem performSync_mutualExclusion :
    (performSyncGuard true = some syncAlreadyRunningResult
      ∧ syncAlreadyRunningResult.1.success = false
      ∧ syncAlreadyRunningResult.1.count = 0)
    ∧ (∀ s : SyncFlagState, s.syncInProgress = true → syncStep s .trigger = s)
    ∧ (∀ evs : List SyncEvent,
        (evs.foldl syncStep { syncInProgress := false, inFlight := 0 }).inFlight ≤ 1) := by
  refine ⟨⟨rfl, rfl, rfl⟩, ?_, ?_⟩
  · intro s hs
    simp [syncStep, hs]
  · intro evs
    have h := syncRun_inv evs { syncInProgress := false, inFlight := 0 } (by simp [syncFlagInv])
    unfold syncFlagInv at h
    rw [h]
    by_cases hb : (evs.foldl syncStep { syncInProgress := false, inFlight := 0 }).syncInProgress = true <;>
      simp [hb]

/-- Witness for C4 re-triggering in a running state. -/
theorem performSync_mutualExclusion_witness :
    syncStep { syncInProgress := true, inFlight := 1 } .trigger
      = { syncInProgress := true, inFlight := 1 } :=
  performSync_mutualExclusion.2.1 { syncInProgress := true, inFlight := 1 } rfl

/-! ## Orchestrator: fan-out result aggregation and run classification -/

/-- Outcome of one awaited fan-out branch of `Promise.allSettled`. -/
inductive Settled
  | fulfilled (r : SubResult)
  | rejected (msg : String)
deriving DecidableEq

/-- The per-entity `syncDetails` entry for one settled outcome: a fulfilled
value is taken as is; a rejection becomes `{success:false, count:0,
errors:[reason]}`. -/
def settledDetail : Settled → SubResult
  | .fulfilled r => r
  | .rejected m => { success := false, count := 0, errors := [m] }

/-- Whether the branch's promise was rejected (only this sets `partialSync`
in the source). -/
def settledRejected : Settled → Bool
  | .fulfilled _ => false
  | .rejected _ => true

/-- The error string pushed onto `syncResult.errors` for a rejected branch. -/
def settledError (which : String) : Settled → List String
  | .fulfilled _ => []
  | .rejected m => [s!"{which} sync failed: {m}"]

/-- Merged run result (the `SyncResult` fields the fan-out step computes:
`duration` and history bookkeeping are timing-only and omitted). -/
structure MergedRun where
  success : Bool
  synced : Nat
  errors : List String
  partialSync : Bool
  devices : SubResult
  students : SubResult
  content : SubResult
  analytics : SubResult
deriving DecidableEq

/-- Lines 148–236 of `performSync()`: fold the four settled outcomes into one
`SyncResult`.  `synced` sums the three data reconcilers' counts (a rejected
branch contributes 0, and the analytics count is never added);
`partialSync` is set only by a rejected branch; `hasAnySuccess` looks at
content, devices and students only; `success` is `hasAnySuccess` with no
rejection. -/
def mergeOutcomes (devicesR studentsR contentR analyticsR : Settled) : MergedRun :=
  let dev := settledDetail devicesR
  let stu := settledDetail studentsR
  let con := settledDetail contentR
  let ana := settledDetail analyticsR
  let pSync := settledRejected devicesR || settledRejected studentsR ||
    settledRejected contentR || settledRejected analyticsR
  let errs := settledError "Devices" devicesR ++ settledError "Students" studentsR ++
    settledError "Content" contentR ++ settledError "Analytics" analyticsR
  let hasAnySuccess := con.success || dev.success || stu.success
  { success := hasAnySuccess && !pSync
    synced := dev.count + stu.count + con.count
    errors := errs
    partialSync := pSync
    devices := dev
    students := stu
    content := con
    analytics := ana }

/-- The three classification branches of lines 215–234. -/
inductive RunOutcome
  | fullSuccess
  | partialRun
  | failureRun
deriving DecidableEq

/-- Classify the merged run exactly as the source's if/else chain does. -/
def classifyRun (m : MergedRun) : RunOutcome :=
  let hasAnySuccess := m.content.success || m.devices.success || m.students.success
  if hasAnySuccess && !m.partialSync then .fullSuccess
  else if hasAnySuccess && m.partialSync then .partialRun
  else .failureRun

/-- The orchestrator's per-run counters touched by the classification. -/
structure SyncCounters where
  successfulSyncs : Nat
  failedSyncs : Nat
  partialSyncs : Nat
  consecutiveFailures : Nat
  lastSuccessfulSync : Option Int
deriving DecidableEq

/-- Counter effects of each classification branch: a full success bumps the
success counter, resets `consecutiveFailures` and refreshes
`lastSuccessfulSync`; the other two branches increment
`consecutiveFailures`. -/
def applyRunOutcome (now : Int) (o : RunOutcome) (c : SyncCounters) : SyncCounters :=
  match o with
  | .fullSuccess =>
      { c with successfulSyncs := c.successfulSyncs + 1, consecutiveFailures := 0
               lastSuccessfulSync := some now }
  | .partialRun =>
      { c with partialSyncs := c.partialSyncs + 1
               consecutiveFailures := c.consecutiveFailures + 1 }
  | .failureRun =>
      { c with failedSyncs := c.failedSyncs + 1
               consecutiveFailures := c.consecutiveFailures + 1 }

/-- The `syncDevices` wrapper of the orchestrator: empty batch is a trivial
success; a batch failing validation is an entity-scoped failure; otherwise the
awaited reconciler call (`syncDevicesFromCloud` + `cleanupRemovedDevices`,
abstracted as its outcome) either succeeds with `count = devices.length` or
throws — and a throw is caught inside `syncDevices`, so the branch's promise
is still fulfilled, carrying `{success:false, count:0, errors:[message]}`. -/
def syncDevices (devices : List RawDevice) (reconciler : Except String Unit) : SubResult :=
  if devices.length = 0 then { success := true, count := 0, errors := [] }
  else if !(validateDevicesData devices).isValid then
    { success := false, count := 0, errors := (validateDevicesData devices).errors }
  else
    match reconciler with
    | .ok _ => { success := true, count := devices.length, errors := [] }
    | .error e => { success := false, count := 0, errors := [e] }

/-- A fulfilled successful sub-result with `count = n`. -/
def okSub (n : Nat) : SubResult := { success := true, count := n, errors := [] }

/-- A raw device record passing every validator check. -/
def demoRawDevice : RawDevice :=
  { id := some "d1", deviceCode := some "ABC123", hubId := some "H1"
    name := none, status := some "active" }

/-- C2 (divergence witnessed on the code): when the device reconciler throws
and the other three branches succeed, `syncDevices` swallows the throw into a
fulfilled `{success:false}` sub-result, so the merged run reports
`success=true` and `partialSync=false` with `syncDetails.devices.success =
false` — not the `success=false`/`partialSync=true` the claim requires. -/
theorem performSync_deviceThrow_notPartial :
    (syncDevices [demoRawDevice] (.error "device reconciler crashed")).success = false
    ∧ (mergeOutcomes
        (.fulfilled (syncDevices [demoRawDevice] (.error "device reconciler crashed")))
        (.fulfilled (okSub 2)) (.fulfilled (okSub 3)) (.fulfilled (okSub 0))).devices.success = false
    ∧ (mergeOutcomes
        (.fulfilled (syncDevices [demoRawDevice] (.error "device reconciler crashed")))
        (.fulfilled (okSub 2)) (.fulfilled (okSub 3)) (.fulfilled (okSub 0))).students.success = true
    ∧ (mergeOutcomes
        (.fulfilled (syncDevices [demoRawDevice] (.error "device reconciler crashed")))
        (.fulfilled (okSub 2)) (.fulfilled (okSub 3)) (.fulfilled (okSub 0))).content.success = true
    ∧ (mergeOutcomes
        (.fulfilled (syncDevices [demoRawDevice] (.error "device reconciler crashed")))
        (.fulfilled (okSub 2)) (.fulfilled (okSub 3)) (.fulfilled (okSub 0))).analytics.success = true
    ∧ (mergeOutcomes
        (.fulfilled (syncDevices [demoRawDevice] (.error "device reconciler crashed")))
        (.fulfilled (okSub 2)) (.fulfilled (okSub 3)) (.fulfilled (okSub 0))).success = true
    ∧ (mergeOutcomes
        (.fulfilled (syncDevices [demoRawDevice] (.error "device reconciler crashed")))
        (.fulfilled (okSub 2)) (.fulfilled (okSub 3)) (.fulfilled (okSub 0))).partialSync = false := by
  decide

/-- C3 (divergence witnessed on the code): a completed run with a failed
devices sub-result and three successful ones is classified as a full success
(the claim requires Partial), so the consecutive-failure counter is reset to
0 and `lastSuccessfulSync` refreshed instead of the counter incrementing. -/
theorem classifyRun_failedSubResult_countedSuccess :
    classifyRun (mergeOutcomes (.fulfilled { success := false, count := 0, errors := ["boom"] })
        (.fulfilled (okSub 2)) (.fulfilled (okSub 3)) (.fulfilled (okSub 0))) = .fullSuccess
    ∧ applyRunOutcome 99
        (classifyRun (mergeOutcomes (.fulfilled { success := false, count := 0, errors := ["boom"] })
          (.fulfilled (okSub 2)) (.fulfilled (okSub 3)) (.fulfilled (okSub 0))))
        { successfulSyncs := 0, failedSyncs := 0, partialSyncs := 0
          consecutiveFailures := 4, lastSuccessfulSync := none }
      = { successfulSyncs := 1, failedSyncs := 0, partialSyncs := 0
          consecutiveFailures := 0, lastSuccessfulSync := some 99 } := by
  decide

/-! ## Validator case-sensitivity (C9) -/

/-- A raw device record that is valid except possibly for its code. -/
def demoRawDeviceWith (code : String) : RawDevice :=
  { id := some "d1", deviceCode := some code, hubId := some "H1"
    name := none, status := some "active" }

/-- A raw student record that is valid except possibly for its code. -/
def demoRawStudentWith (code : String) : RawStudent :=
  { id := some "s1", studentCode := some code, hubId := some "H1"
    firstName := none, lastName := none, grade := none, age := some 10
    metadata := none, status := some "active" }

/-- C9 counterexample: a lowercase device code matching `^[A-Z0-9]{6,8}$` only
up to case, and a lowercase student code matching `^[A-Z0-9]{4,6}$` only up to
case, both produce a code-format validation error — the validators are
case-sensitive, contradicting the claim. -/
theorem validators_lowercaseCode_rejected :
    (validateDevicesData [demoRawDeviceWith "abc123"]).errors
        = ["Device at index 0 has invalid deviceCode format: abc123"]
    ∧ (validateDevicesData [demoRawDeviceWith "abc123"]).isValid = false
    ∧ (validateStudentsData [demoRawStudentWith "ab12"]).errors
        = ["Student at index 0 has invalid studentCode format: ab12"]
    ∧ (validateStudentsData [demoRawStudentWith "ab12"]).isValid = false := by
  decide

/-- C9 (amended): the device and student code-format checks are
case-sensitive — for an otherwise-valid record, the format error is emitted
exactly when the code fails the literal uppercase pattern (`codeFormatOk`),
so a code containing a lowercase letter is always reported. -/
theorem validators_codeFormat_caseSensitive (dcode scode : String)
    (hd : dcode ≠ "") (hs : scode ≠ "") :
    (validateDevicesData [demoRawDeviceWith dcode]).errors
      = (if codeFormatOk 6 8 dcode then []
         else [s!"Device at index 0 has invalid deviceCode format: {dcode}"])
    ∧ (validateStudentsData [demoRawStudentWith scode]).errors
      = (if codeFormatOk 4 6 scode then []
         else [s!"Student at index 0 has invalid studentCode format: {scode}"]) := by
  constructor
  · simp only [validateDevicesData, demoRawDeviceWith, List.enum, deviceErrorsAt, jsTruthy]
    by_cases hfmt : codeFormatOk 6 8 dcode
    · simp [hfmt, hd]
    · simp [hfmt, hd]
      rfl
  · simp only [validateStudentsData, demoRawStudentWith, List.enum, studentErrorsAt, jsTruthy]
    by_cases hfmt : codeFormatOk 4 6 scode
    · simp [hfmt, hs]
    · simp [hfmt, hs]
      rfl

/-- Witness for the amended C9 at concrete codes (one failing, one passing
each pattern). -/
theorem validators_codeFormat_caseSensitive_witness :
    (validateDevicesData [demoRawDeviceWith "abc123"]).errors
        = ["Device at index 0 has invalid deviceCode format: abc123"]
    ∧ (validateStudentsData [demoRawStudentWith "AB12"]).errors = [] := by
  have h1 := (validators_codeFormat_caseSensitive "abc123" "AB12" (by decide) (by decide)).1
  have h2 := (validators_codeFormat_caseSensitive "abc123" "AB12" (by decide) (by decide)).2
  rw [h1, h2]
  exact ⟨by decide, by decide⟩

/-! ## Device reconciler (`syncDevicesFromCloud` of the devices service) -/

/-- Row of the `local_devices` table (entity `LocalDevice`); `updatedAt` is
an `@UpdateDateColumn`, refreshed on every save. -/
structure LocalDevice where
  id : Nat
  deviceCode : String
  name : Option String
  status : String
  registeredAt : Option Int
  lastSeen : Option Int
  deviceInfo : Option String
  synced : Bool
  cachedAt : Int
  updatedAt : Int
deriving DecidableEq

/-- The typed cloud device record taken by `syncDevicesFromCloud`. -/
structure CloudDevice where
  deviceCode : String
  name : Option String
  status : String
deriving DecidableEq

/-- Update branch of `syncDevicesFromCloud`: name (kept when the incoming one
is falsy), status, `synced`, and the auto-refreshed `updatedAt`;
`registeredAt` is deliberately not modified. -/
def updateDeviceFields (d : CloudDevice) (now : Int) (r : LocalDevice) : LocalDevice :=
  { r with name := jsOrOpt d.name r.name, status := d.status, synced := true, updatedAt := now }

/-- Create branch of `syncDevicesFromCloud`: a fresh row with `registeredAt`
left unset (registration is a separate, device-initiated action). -/
def newDevice (d : CloudDevice) (nid : Nat) (now : Int) : LocalDevice :=
  { id := nid, deviceCode := d.deviceCode, name := d.name, status := d.status
    registeredAt := none, lastSeen := none, deviceInfo := none, synced := true
    cachedAt := now, updatedAt := now }

/-- The `existingDevices.find(d => d.deviceCode === ...)` predicate. -/
def byDevCode (code : String) (r : LocalDevice) : Bool := r.deviceCode == code

/-- The upsert loop of `syncDevicesFromCloud`.  Membership is tested against
the snapshot of codes taken before the loop (`existingCodes`), exactly as the
source consults the pre-loaded `existingDevices` array; created rows are
appended with ids drawn from the fresh counter. -/
def devApplyItems (existingCodes : List String) (now : Int) :
    List LocalDevice × Nat → List CloudDevice → List LocalDevice × Nat
  | acc, [] => acc
  | (cur, nid), d :: rest =>
      if d.deviceCode ∈ existingCodes then
        devApplyItems existingCodes now
          (updateFirstBy (byDevCode d.deviceCode) (updateDeviceFields d now) cur, nid) rest
      else
        devApplyItems existingCodes now (cur ++ [newDevice d nid now], nid + 1) rest

/-- `syncDevicesFromCloud`: upsert every incoming record, then hard-remove the
rows whose code is absent from the cloud batch. -/
def syncDevicesFromCloud (devices : List CloudDevice) (now : Int) (freshBase : Nat)
    (S : List LocalDevice) : List LocalDevice :=
  let existingCodes := S.map (·.deviceCode)
  let cloudCodes := devices.map (·.deviceCode)
  (devApplyItems existingCodes now (S, freshBase) devices).1.filter
    (fun r => cloudCodes.contains r.deviceCode)

/-- Membership description of `updateFirstBy`: every element of the result is
an element of the input, or the image under `f` of one. -/
theorem mem_updateFirstBy {α : Type} (p : α → Bool) (f : α → α) (l : List α) :
    ∀ x ∈ updateFirstBy p f l, x ∈ l ∨ ∃ y ∈ l, x = f y := by
  induction l with
  | nil => intro x hx; simp [updateFirstBy] at hx
  | cons a t ih =>
      intro x hx
      unfold updateFirstBy at hx
      by_cases hp : p a
      · rw [if_pos hp] at hx
        rcases List.mem_cons.mp hx with hx | hx
        · exact Or.inr ⟨a, List.mem_cons_self a t, hx⟩
        · exact Or.inl (List.mem_cons_of_mem a hx)
      · rw [if_neg hp] at hx
        rcases List.mem_cons.mp hx with hx | hx
        · exact Or.inl (by rw [hx]; exact List.mem_cons_self a t)
        · rcases ih x hx with h | ⟨y, hy, hxy⟩
          · exact Or.inl (List.mem_cons_of_mem a h)
          · exact Or.inr ⟨y, List.mem_cons_of_mem a hy, hxy⟩

/-- Provenance invariant of the device upsert loop: every row either descends
from a snapshot row (same id, same `registeredAt`) or is a fresh insert with
`registeredAt` unset and an id at or above the fresh base. -/
def devRowInv (S : List LocalDevice) (freshBase : Nat) (r : LocalDevice) : Prop :=
  (∃ r0 ∈ S, r.id = r0.id ∧ r.registeredAt = r0.registeredAt) ∨
    (r.registeredAt = none ∧ freshBase ≤ r.id)

theorem devApplyItems_inv (S : List LocalDevice) (freshBase : Nat)
    (existingCodes : List String) (now : Int) :
    ∀ (ds : List CloudDevice) (cur : List LocalDevice) (nid : Nat),
      (∀ r ∈ cur, devRowInv S freshBase r) → freshBase ≤ nid →
      ∀ r ∈ (devApplyItems existingCodes now (cur, nid) ds).1, devRowInv S freshBase r := by
  intro ds
  induction ds with
  | nil => intro cur nid hcur _ r hr; exact hcur r hr
  | cons d rest ih =>
      intro cur nid hcur hnid r hr
      unfold devApplyItems at hr
      by_cases hmem : d.deviceCode ∈ existingCodes
      · rw [if_pos hmem] at hr
        refine ih _ nid ?_ hnid r hr
        intro x hx
        rcases mem_updateFirstBy _ _ cur x hx with h | ⟨y, hy, hxy⟩
        · exact hcur x h
        · rcases hcur y hy with ⟨r0, hr0, hid, hreg⟩ | ⟨hnone, hge⟩
          · exact Or.inl ⟨r0, hr0, by rw [hxy]; exact hid, by rw [hxy]; exact hreg⟩
          · exact Or.inr ⟨by rw [hxy]; exact hnone, by rw [hxy]; exact hge⟩
      · rw [if_neg hmem] at hr
        refine ih _ (nid + 1) ?_ (le_trans hnid (Nat.le_succ nid)) r hr
        intro x hx
        rcases List.mem_append.mp hx with h | h
        · exact hcur x h
        · rw [List.mem_singleton.mp h]
          exact Or.inr ⟨rfl, hnid⟩

/-- C7: device sync never touches `registeredAt`.  For a fresh-id supply above
every stored id, any surviving row that shares its id with a stored row keeps
that row's `registeredAt` verbatim (set or not), and any row whose id matches
no stored row is a fresh insert with `registeredAt` unset. -/
theorem syncDevicesFromCloud_registeredAt_writeOnce
    (devices : List CloudDevice) (now : Int) (freshBase : Nat) (S : List LocalDevice)
    (hfresh : ∀ r ∈ S, r.id < freshBase) (hids : (S.map (·.id)).Nodup) :
    ∀ r ∈ syncDevicesFromCloud devices now freshBase S,
      (∀ r0 ∈ S, r.id = r0.id → r.registeredAt = r0.registeredAt)
      ∧ ((∀ r0 ∈ S, r.id ≠ r0.id) → r.registeredAt = none) := by
  intro r hr
  have hbase : ∀ x ∈ S, devRowInv S freshBase x := by
    intro x hx; exact Or.inl ⟨x, hx, rfl, rfl⟩
  have hmem : r ∈ (devApplyItems (S.map (·.deviceCode)) now (S, freshBase) devices).1 := by
    unfold syncDevicesFromCloud at hr
    exact (List.mem_filter.mp hr).1
  have hinv := devApplyItems_inv S freshBase (S.map (·.deviceCode)) now devices S freshBase
    hbase le_rfl r hmem
  rcases hinv with ⟨r0, hr0, hid, hreg⟩ | ⟨hnone, hge⟩
  · constructor
    · intro r1 hr1 hid1
      have : r0 = r1 :=
        List.inj_on_of_nodup_map hids hr0 hr1 (by rw [← hid, hid1])
      rw [hreg, this]
    · intro hnot
      exact absurd hid (hnot r0 hr0)
  · constructor
    · intro r1 hr1 hid1
      have h1 := hfresh r1 hr1
      rw [← hid1] at h1
      exact absurd hge (not_le.mpr h1)
    · intro _
      exact hnone

/-- Device row with `registeredAt` already set, used by the C7 witness. -/
def demoRegisteredDevice : LocalDevice :=
  { id := 0, deviceCode := "ABC123", name := some "tablet", status := "active"
    registeredAt := some 42, lastSeen := none, deviceInfo := none, synced := false
    cachedAt := 0, updatedAt := 0 }

/-- Cloud device record used by the C7 witness. -/
def demoCloudDevice : CloudDevice :=
  { deviceCode := "ABC123", name := none, status := "inactive" }

/-- Witness for C7: syncing a batch that updates the registered device leaves
its stored `registeredAt` at `some 42`. -/
theorem syncDevicesFromCloud_registeredAt_writeOnce_witness :
    (updateDeviceFields demoCloudDevice 5 demoRegisteredDevice).registeredAt = some 42 := by
  have h := syncDevicesFromCloud_registeredAt_writeOnce [demoCloudDevice] 5 1
    [demoRegisteredDevice] (by decide) (by decide)
  have hmem : updateDeviceFields demoCloudDevice 5 demoRegisteredDevice ∈
      syncDevicesFromCloud [demoCloudDevice] 5 1 [demoRegisteredDevice] := by decide
  have hkeep := (h _ hmem).1 demoRegisteredDevice (by decide) (by decide)
  exact hkeep.trans rfl

/-! ## List toolbox for the idempotence proofs -/

theorem find?_updateFirstBy_ne {α : Type} (p q : α → Bool) (f : α → α)
    (h : ∀ x, p x = true → q x = false ∧ q (f x) = false) :
    ∀ l : List α, (updateFirstBy p f l).find? q = l.find? q := by
  intro l
  induction l with
  | nil => rfl
  | cons a t ih =>
      unfold updateFirstBy
      by_cases hp : p a
      · rw [if_pos hp]
        rw [List.find?_cons_of_neg _ (by simp [(h a hp).2]),
          List.find?_cons_of_neg _ (by simp [(h a hp).1])]
      · rw [if_neg hp]
        by_cases hq : q a
        · rw [List.find?_cons_of_pos _ hq, List.find?_cons_of_pos _ hq]
        · rw [List.find?_cons_of_neg _ hq, List.find?_cons_of_neg _ hq, ih]

theorem find?_updateFirstBy_self {α : Type} (p : α → Bool) (f : α → α)
    (hf : ∀ x, p x = true → p (f x) = true) :
    ∀ (l : List α) (a : α), l.find? p = some a →
      (updateFirstBy p f l).find? p = some (f a) := by
  intro l
  induction l with
  | nil => intro a h; simp at h
  | cons b t ih =>
      intro a h
      unfold updateFirstBy
      by_cases hp : p b
      · rw [if_pos hp]
        rw [List.find?_cons_of_pos _ hp, Option.some_inj] at h
        rw [List.find?_cons_of_pos _ (hf b hp), h]
      · rw [if_neg hp]
        rw [List.find?_cons_of_neg _ hp] at h
        rw [List.find?_cons_of_neg _ hp]
        exact ih a h

theorem map_updateFirstBy_eq {α β : Type} (p : α → Bool) (f : α → α) (e : α → β) :
    ∀ (l : List α) (a : α), l.find? p = some a → e (f a) = e a →
      (updateFirstBy p f l).map e = l.map e := by
  intro l
  induction l with
  | nil => intro a h _; simp at h
  | cons b t ih =>
      intro a h he
      unfold updateFirstBy
      by_cases hp : p b
      · rw [if_pos hp]
        rw [List.find?_cons_of_pos _ hp, Option.some_inj] at h
        simp only [List.map_cons]
        rw [h, he]
      · rw [if_neg hp]
        rw [List.find?_cons_of_neg _ hp] at h
        simp only [List.map_cons, ih a h he]

theorem find?_append_some {α : Type} (p : α → Bool) (l₁ l₂ : List α) (a : α)
    (h : l₁.find? p = some a) : (l₁ ++ l₂).find? p = some a := by
  rw [List.find?_append, h]; rfl

theorem find?_append_none {α : Type} (p : α → Bool) (l₁ l₂ : List α)
    (h : l₁.find? p = none) : (l₁ ++ l₂).find? p = l₂.find? p := by
  rw [List.find?_append, h]; rfl

theorem find?_filter_of_imp {α : Type} (keep q : α → Bool) (l : List α)
    (h : ∀ x, q x = true → keep x = true) :
    (l.filter keep).find? q = l.find? q := by
  induction l with
  | nil => rfl
  | cons a t ih =>
      rw [List.filter_cons]
      by_cases hk : keep a
      · rw [if_pos hk]
        by_cases hq : q a
        · rw [List.find?_cons_of_pos _ hq, List.find?_cons_of_pos _ hq]
        · rw [List.find?_cons_of_neg _ hq, List.find?_cons_of_neg _ hq, ih]
      · rw [if_neg hk]
        have hq : ¬ q a = true := fun hqa => hk (h a hqa)
        rw [List.find?_cons_of_neg _ hq, ih]

/-! ## Content reconciliation is idempotent (C6, content part) -/

theorem processContentItem_lookup_mono (now : Int) (st : ContentBatchState)
    (c : CloudContentItem) (k : String) (r : LocalContent)
    (h : st.rows.find? (byCloudId k) = some r) :
    ∃ r', (processContentItem now st c).rows.find? (byCloudId k) = some r'
      ∧ storedUpdatedAt r ≤ storedUpdatedAt r' := by
  by_cases hid : c.id = ""
  · exact ⟨r, by simpa [processContentItem, hid] using h, le_rfl⟩
  · cases hfind : st.rows.find? (byCloudId c.id) with
    | none =>
        refine ⟨r, ?_, le_rfl⟩
        simp only [processContentItem, if_neg hid, hfind]
        exact find?_append_some _ _ _ _ h
    | some existing =>
        by_cases hlt : storedUpdatedAt existing < contentUpdatedAtOf c now
        · by_cases hk : k = c.id
          · subst hk
            rw [h] at hfind
            rw [Option.some_inj] at hfind
            subst hfind
            refine ⟨contentUpdateFields c now r, ?_, ?_⟩
            · simp only [processContentItem, if_neg hid, h, if_pos hlt]
              exact find?_updateFirstBy_self (byCloudId c.id) (contentUpdateFields c now)
                (fun x hx => by simpa [byCloudId, contentUpdateFields] using hx) st.rows r h
            · simp only [storedUpdatedAt, contentUpdateFields, Option.getD_some]
              exact le_of_lt hlt
          · refine ⟨r, ?_, le_rfl⟩
            simp only [processContentItem, if_neg hid, hfind, if_pos hlt]
            rw [find?_updateFirstBy_ne (byCloudId c.id) (byCloudId k)
              (contentUpdateFields c now) ?_ st.rows]
            · exact h
            · intro x hx
              have hcid : x.cloudId = some c.id := by simpa [byCloudId] using hx
              have hne : ¬ c.id = k := fun heq => hk heq.symm
              constructor
              · simp [byCloudId, hcid, hne]
              · simp [byCloudId, contentUpdateFields, hcid, hne]
        · refine ⟨r, ?_, le_rfl⟩
          simpa [processContentItem, if_neg hid, hfind, if_neg hlt] using h

theorem processContentItem_lookup_self (now : Int) (st : ContentBatchState)
    (c : CloudContentItem) (u : Int) (hid : c.id ≠ "") (hu : c.updatedAt = some u) :
    ∃ r', (processContentItem now st c).rows.find? (byCloudId c.id) = some r'
      ∧ u ≤ storedUpdatedAt r' := by
  have hcu : contentUpdatedAtOf c now = u := by simp [contentUpdatedAtOf, hu]
  cases hfind : st.rows.find? (byCloudId c.id) with
  | none =>
      refine ⟨insertedContent c now st.nextId, ?_, ?_⟩
      · simp only [processContentItem, if_neg hid, hfind]
        rw [find?_append_none _ _ _ hfind]
        rw [List.find?_singleton, if_pos (by simp [byCloudId, insertedContent, contentUpdateFields])]
      · simp only [storedUpdatedAt, insertedContent, hu]
        simp
  | some existing =>
      by_cases hlt : storedUpdatedAt existing < contentUpdatedAtOf c now
      · refine ⟨contentUpdateFields c now existing, ?_, ?_⟩
        · simp only [processContentItem, if_neg hid, hfind, if_pos hlt]
          exact find?_updateFirstBy_self (byCloudId c.id) (contentUpdateFields c now)
            (fun x hx => by simpa [byCloudId, contentUpdateFields] using hx) st.rows existing hfind
        · simp [storedUpdatedAt, contentUpdateFields, hcu]
      · refine ⟨existing, ?_, ?_⟩
        · simp [processContentItem, if_neg hid, hfind, if_neg hlt]
        · rw [hcu] at hlt
          exact not_lt.mp hlt

theorem processBatch_lookup_mono (b : List CloudContentItem) (now : Int) :
    ∀ (st : ContentBatchState) (k : String) (r : LocalContent),
      st.rows.find? (byCloudId k) = some r →
      ∃ r', (processBatch b now st).rows.find? (byCloudId k) = some r'
        ∧ storedUpdatedAt r ≤ storedUpdatedAt r' := by
  induction b with
  | nil => intro st k r h; exact ⟨r, h, le_rfl⟩
  | cons c rest ih =>
      intro st k r h
      obtain ⟨r1, h1, hle1⟩ := processContentItem_lookup_mono now st c k r h
      obtain ⟨r2, h2, hle2⟩ := ih (processContentItem now st c) k r1 h1
      exact ⟨r2, h2, le_trans hle1 hle2⟩

theorem processBatch_saturates (b : List CloudContentItem) (now : Int) :
    ∀ (st : ContentBatchState) (c : CloudContentItem), c ∈ b → c.id ≠ "" →
      ∀ u, c.updatedAt = some u →
      ∃ r', (processBatch b now st).rows.find? (byCloudId c.id) = some r'
        ∧ u ≤ storedUpdatedAt r' := by
  induction b with
  | nil => intro st c hc; simp at hc
  | cons d rest ih =>
      intro st c hc hid u hu
      rcases List.mem_cons.mp hc with hceq | hcmem
      · subst hceq
        obtain ⟨r1, h1, hle1⟩ := processContentItem_lookup_self now st c u hid hu
        obtain ⟨r2, h2, hle2⟩ := processBatch_lookup_mono rest now _ c.id r1 h1
        exact ⟨r2, h2, le_trans hle1 hle2⟩
      · exact ih (processContentItem now st d) c hcmem hid u hu

theorem processBatch_stable (b : List CloudContentItem) (now : Int) :
    ∀ st : ContentBatchState,
      (∀ c ∈ b, c.id ≠ "" →
        ∃ r u, st.rows.find? (byCloudId c.id) = some r ∧ c.updatedAt = some u
          ∧ u ≤ storedUpdatedAt r) →
      (processBatch b now st).rows = st.rows := by
  induction b with
  | nil => intro st _; rfl
  | cons c rest ih =>
      intro st hsat
      have hstep : (processContentItem now st c).rows = st.rows := by
        by_cases hid : c.id = ""
        · simp [processContentItem, hid]
        · obtain ⟨r, u, hfind, hu, hle⟩ := hsat c (List.mem_cons_self _ _) hid
          have hcu : contentUpdatedAtOf c now = u := by simp [contentUpdatedAtOf, hu]
          simp only [processContentItem, if_neg hid, hfind, hcu]
          rw [if_neg (not_lt.mpr hle)]
      have hrest := ih (processContentItem now st c) (by
        intro c' hc' hid'
        obtain ⟨r, u, hfind, hu, hle⟩ := hsat c' (List.mem_cons_of_mem _ hc') hid'
        exact ⟨r, u, by rw [hstep]; exact hfind, hu, hle⟩)
      calc (processBatch (c :: rest) now st).rows
          = (processBatch rest now (processContentItem now st c)).rows := rfl
        _ = (processContentItem now st c).rows := hrest
        _ = st.rows := hstep

/-- Content part of C6: re-applying a batch whose items all carry a remote
`updatedAt` changes nothing in the stored table. -/
theorem processBatch_idem (b : List CloudContentItem) (t1 t2 : Int)
    (st : ContentBatchState)
    (hdates : ∀ c ∈ b, c.id ≠ "" → ∃ u, c.updatedAt = some u) :
    (processBatch b t2 (processBatch b t1 st)).rows = (processBatch b t1 st).rows := by
  apply processBatch_stable
  intro c hc hid
  obtain ⟨u, hu⟩ := hdates c hc hid
  obtain ⟨r', hfind, hle⟩ := processBatch_saturates b t1 st c hc hid u hu
  exact ⟨r', u, hfind, hu, hle⟩

/-! ## Device reconciliation is idempotent up to the `updatedAt` stamp (C6) -/

/-- Erase the auto-stamped `updatedAt` column of a device row. -/
def eraseDevTime (r : LocalDevice) : LocalDevice := { r with updatedAt := 0 }

/-- A device row the incoming record's update leaves erased-unchanged. -/
def DevStable (d : CloudDevice) (r : LocalDevice) : Prop :=
  jsOrOpt d.name r.name = r.name ∧ r.status = d.status ∧ r.synced = true

theorem jsOrOpt_idem (a b : Option String) : jsOrOpt a (jsOrOpt a b) = jsOrOpt a b := by
  cases a with
  | none => rfl
  | some s => by_cases hs : s = "" <;> simp [jsOrOpt, hs]

theorem jsOrOpt_self (a : Option String) : jsOrOpt a a = a := by
  cases a with
  | none => rfl
  | some s => by_cases hs : s = "" <;> simp [jsOrOpt, hs]

theorem devStable_update (d : CloudDevice) (now : Int) (r : LocalDevice) :
    DevStable d (updateDeviceFields d now r) :=
  ⟨jsOrOpt_idem d.name r.name, rfl, rfl⟩

theorem devStable_new (d : CloudDevice) (nid : Nat) (now : Int) :
    DevStable d (newDevice d nid now) :=
  ⟨jsOrOpt_self d.name, rfl, rfl⟩

theorem eraseDevTime_update_of_stable (d : CloudDevice) (now : Int) (r : LocalDevice)
    (h : DevStable d r) : eraseDevTime (updateDeviceFields d now r) = eraseDevTime r := by
  obtain ⟨h1, h2, h3⟩ := h
  cases r
  simp_all [eraseDevTime, updateDeviceFields]

theorem devStable_of_erase_eq (d : CloudDevice) (r r' : LocalDevice)
    (he : eraseDevTime r' = eraseDevTime r) (h : DevStable d r) : DevStable d r' := by
  have hname : r'.name = r.name := by
    simpa [eraseDevTime] using congrArg LocalDevice.name he
  have hstatus : r'.status = r.status := by
    simpa [eraseDevTime] using congrArg LocalDevice.status he
  have hsynced : r'.synced = r.synced := by
    simpa [eraseDevTime] using congrArg LocalDevice.synced he
  exact ⟨by rw [hname]; exact h.1, by rw [hstatus]; exact h.2.1, by rw [hsynced]; exact h.2.2⟩

/-- Items whose code differs from `code` never disturb the first row found by
`byDevCode code` (frame property of the upsert loop). -/
theorem devApplyItems_find?_frame (existingCodes : List String) (now : Int) :
    ∀ (ds : List CloudDevice) (cur : List LocalDevice) (nid : Nat) (code : String) (r : LocalDevice),
      (∀ d ∈ ds, d.deviceCode ≠ code) →
      cur.find? (byDevCode code) = some r →
      ((devApplyItems existingCodes now (cur, nid) ds).1).find? (byDevCode code) = some r := by
  intro ds
  induction ds with
  | nil => intro cur nid code r _ h; exact h
  | cons d rest ih =>
      intro cur nid code r hne h
      unfold devApplyItems
      by_cases hmem : d.deviceCode ∈ existingCodes
      · rw [if_pos hmem]
        refine ih _ _ code r (fun d' hd' => hne d' (List.mem_cons_of_mem _ hd')) ?_
        rw [find?_updateFirstBy_ne (byDevCode d.deviceCode) (byDevCode code)
          (updateDeviceFields d now) ?_ cur]
        · exact h
        · intro x hx
          have hxc : x.deviceCode = d.deviceCode := by simpa [byDevCode] using hx
          have hdc : ¬ d.deviceCode = code := hne d (List.mem_cons_self _ _)
          constructor
          · simp [byDevCode, hxc, hdc]
          · simp [byDevCode, updateDeviceFields, hxc, hdc]
      · rw [if_neg hmem]
        exact ih _ _ code r (fun d' hd' => hne d' (List.mem_cons_of_mem _ hd'))
          (find?_append_some _ _ _ _ h)

/-- After the first upsert pass, every incoming record's code resolves to a
first-match row that is stable under re-applying that record. -/
theorem devApplyItems_stable (existingCodes : List String) (now : Int) :
    ∀ (ds : List CloudDevice) (cur : List LocalDevice) (nid : Nat),
      (ds.map (·.deviceCode)).Nodup →
      (∀ d ∈ ds, d.deviceCode ∉ existingCodes → cur.find? (byDevCode d.deviceCode) = none) →
      (∀ d ∈ ds, d.deviceCode ∈ existingCodes →
        ∃ a, cur.find? (byDevCode d.deviceCode) = some a) →
      ∀ d ∈ ds, ∃ r,
        ((devApplyItems existingCodes now (cur, nid) ds).1).find? (byDevCode d.deviceCode) = some r
          ∧ DevStable d r := by
  intro ds
  induction ds with
  | nil => intro cur nid _ _ _ d hd; simp at hd
  | cons d rest ih =>
      intro cur nid hN h1 h2 d' hd'
      have hNd : d.deviceCode ∉ rest.map (·.deviceCode) := by
        have := hN
        rw [List.map_cons, List.nodup_cons] at this
        exact this.1
      have hNr : (rest.map (·.deviceCode)).Nodup := by
        have := hN
        rw [List.map_cons, List.nodup_cons] at this
        exact this.2
      unfold devApplyItems
      by_cases hmem : d.deviceCode ∈ existingCodes
      · rw [if_pos hmem]
        obtain ⟨a, ha⟩ := h2 d (List.mem_cons_self _ _) hmem
        have hup : (updateFirstBy (byDevCode d.deviceCode) (updateDeviceFields d now)
            cur).find? (byDevCode d.deviceCode) = some (updateDeviceFields d now a) :=
          find?_updateFirstBy_self (byDevCode d.deviceCode) (updateDeviceFields d now)
            (fun x hx => by simpa [byDevCode, updateDeviceFields] using hx) cur a ha
        have hne_frame : ∀ (code : String), code ≠ d.deviceCode →
            (updateFirstBy (byDevCode d.deviceCode) (updateDeviceFields d now)
              cur).find? (byDevCode code) = cur.find? (byDevCode code) := by
          intro code hcode
          refine find?_updateFirstBy_ne _ _ _ ?_ cur
          intro x hx
          have hxc : x.deviceCode = d.deviceCode := by simpa [byDevCode] using hx
          have hdc : ¬ d.deviceCode = code := fun h => hcode h.symm
          exact ⟨by simp [byDevCode, hxc, hdc], by simp [byDevCode, updateDeviceFields, hxc, hdc]⟩
        rcases List.mem_cons.mp hd' with hdd | hdrest
        · rw [hdd]
          refine ⟨updateDeviceFields d now a, ?_, devStable_update d now a⟩
          refine devApplyItems_find?_frame existingCodes now rest _ nid _ _
            (fun e he heq => hNd ?_) hup
          exact heq ▸ List.mem_map.mpr ⟨e, he, rfl⟩
        · refine ih _ nid hNr ?_ ?_ d' hdrest
          · intro e he hnot
            have hecode : e.deviceCode ≠ d.deviceCode := by
              intro heq
              exact hNd (heq ▸ List.mem_map.mpr ⟨e, he, rfl⟩)
            rw [hne_frame e.deviceCode hecode]
            exact h1 e (List.mem_cons_of_mem _ he) hnot
          · intro e he hin
            have hecode : e.deviceCode ≠ d.deviceCode := by
              intro heq
              exact hNd (heq ▸ List.mem_map.mpr ⟨e, he, rfl⟩)
            obtain ⟨a', ha'⟩ := h2 e (List.mem_cons_of_mem _ he) hin
            exact ⟨a', by rw [hne_frame e.deviceCode hecode]; exact ha'⟩
      · rw [if_neg hmem]
        have hnone : cur.find? (byDevCode d.deviceCode) = none :=
          h1 d (List.mem_cons_self _ _) hmem
        have hnew : (cur ++ [newDevice d nid now]).find? (byDevCode d.deviceCode)
            = some (newDevice d nid now) := by
          rw [find?_append_none _ _ _ hnone, List.find?_singleton,
            if_pos (by simp [byDevCode, newDevice])]
        rcases List.mem_cons.mp hd' with hdd | hdrest
        · rw [hdd]
          refine ⟨newDevice d nid now, ?_, devStable_new d nid now⟩
          refine devApplyItems_find?_frame existingCodes now rest _ (nid + 1) _ _
            (fun e he heq => hNd ?_) hnew
          exact heq ▸ List.mem_map.mpr ⟨e, he, rfl⟩
        · refine ih _ (nid + 1) hNr ?_ ?_ d' hdrest
          · intro e he hnot
            have hecode : e.deviceCode ≠ d.deviceCode := by
              intro heq
              exact hNd (heq ▸ List.mem_map.mpr ⟨e, he, rfl⟩)
            rw [find?_append_none _ _ _ (h1 e (List.mem_cons_of_mem _ he) hnot),
              List.find?_singleton, if_neg (by simp [byDevCode, newDevice]; exact fun h => hecode h.symm)]
          · intro e he hin
            obtain ⟨a', ha'⟩ := h2 e (List.mem_cons_of_mem _ he) hin
            exact ⟨a', find?_append_some _ _ _ _ ha'⟩

/-- After one full `syncDevicesFromCloud` run, every incoming record's code
resolves in the stored table to a first-match row stable under re-update. -/
theorem syncDevicesFromCloud_stable (devices : List CloudDevice) (now : Int) (freshBase : Nat)
    (S : List LocalDevice) (hN : (devices.map (·.deviceCode)).Nodup) :
    ∀ d ∈ devices, ∃ r,
      (syncDevicesFromCloud devices now freshBase S).find? (byDevCode d.deviceCode) = some r
        ∧ DevStable d r := by
  intro d hd
  have h1 : ∀ d' ∈ devices, d'.deviceCode ∉ S.map (·.deviceCode) →
      S.find? (byDevCode d'.deviceCode) = none := by
    intro d' _ hnot
    rw [List.find?_eq_none]
    intro x hx hpx
    exact hnot (List.mem_map.mpr ⟨x, hx, by simpa [byDevCode] using hpx⟩)
  have h2 : ∀ d' ∈ devices, d'.deviceCode ∈ S.map (·.deviceCode) →
      ∃ a, S.find? (byDevCode d'.deviceCode) = some a := by
    intro d' _ hmem
    obtain ⟨x, hx, hxc⟩ := List.mem_map.mp hmem
    exact Option.isSome_iff_exists.mp
      (List.find?_isSome.mpr ⟨x, hx, by simp [byDevCode, hxc]⟩)
  obtain ⟨r, hr, hst⟩ := devApplyItems_stable (S.map (·.deviceCode)) now devices S freshBase
    hN h1 h2 d hd
  refine ⟨r, ?_, hst⟩
  show ((devApplyItems (S.map (·.deviceCode)) now (S, freshBase) devices).1.filter
    (fun x => (devices.map (·.deviceCode)).contains x.deviceCode)).find? (byDevCode d.deviceCode)
      = some r
  rw [find?_filter_of_imp _ _ _ ?_]
  · exact hr
  · intro x hx
    have hxc : x.deviceCode = d.deviceCode := by simpa [byDevCode] using hx
    rw [hxc]
    simp only [List.elem_eq_mem, decide_eq_true_eq]
    exact List.mem_map.mpr ⟨d, hd, rfl⟩

/-- Predicates that only inspect erased fields transport `find?` results along
erased-equal lists. -/
theorem find?_erase_congr {α β : Type} (e : α → β) (q : α → Bool) (q' : β → Bool)
    (hq : ∀ x, q x = q' (e x)) {l₁ l₂ : List α} (h : l₁.map e = l₂.map e) :
    Option.map e (l₁.find? q) = Option.map e (l₂.find? q) := by
  have key : ∀ l : List α, Option.map e (l.find? q) = (l.map e).find? q' := by
    intro l
    rw [show q = (fun x => q' (e x)) from funext hq, List.find?_map]
    rfl
  rw [key, key, h]

/-- Second-pass upsert loop: it re-applies every record onto its stable first
match, leaving the table erased-unchanged. -/
theorem devPass2_erase (t2 : Int) (S1 : List LocalDevice) :
    ∀ (ds : List CloudDevice),
      (∀ d ∈ ds, ∃ r, S1.find? (byDevCode d.deviceCode) = some r ∧ DevStable d r) →
      ∀ (cur : List LocalDevice) (nid : Nat),
        cur.map eraseDevTime = S1.map eraseDevTime →
        ((devApplyItems (S1.map (·.deviceCode)) t2 (cur, nid) ds).1).map eraseDevTime
          = S1.map eraseDevTime := by
  intro ds
  induction ds with
  | nil => intro _ cur nid hcur; exact hcur
  | cons d rest ih =>
      intro hstable cur nid hcur
      obtain ⟨r, hfr, hst⟩ := hstable d (List.mem_cons_self _ _)
      have hmem : d.deviceCode ∈ S1.map (·.deviceCode) := by
        have hr1 : r ∈ S1 := List.mem_of_find?_eq_some hfr
        have hrc : r.deviceCode = d.deviceCode := by
          simpa [byDevCode] using List.find?_some hfr
        exact List.mem_map.mpr ⟨r, hr1, hrc⟩
      have hqe : ∀ x, byDevCode d.deviceCode x = byDevCode d.deviceCode (eraseDevTime x) :=
        fun x => rfl
      have hcong := find?_erase_congr eraseDevTime (byDevCode d.deviceCode)
        (byDevCode d.deviceCode) hqe hcur
      rw [hfr] at hcong
      obtain ⟨r', hr', her'⟩ := Option.map_eq_some'.mp hcong
      have hst' : DevStable d r' := devStable_of_erase_eq d r r' her' hst
      unfold devApplyItems
      rw [if_pos hmem]
      refine ih (fun e he => hstable e (List.mem_cons_of_mem _ he)) _ nid ?_
      rw [map_updateFirstBy_eq (byDevCode d.deviceCode) (updateDeviceFields d t2)
        eraseDevTime cur r' hr' (eraseDevTime_update_of_stable d t2 r' hst')]
      exact hcur

/-- Device part of C6: re-applying a batch with pairwise-distinct codes is the
identity on the stored table up to the auto-stamped `updatedAt`. -/
theorem syncDevicesFromCloud_idem (devices : List CloudDevice) (t1 t2 : Int)
    (f1 f2 : Nat) (S : List LocalDevice) (hN : (devices.map (·.deviceCode)).Nodup) :
    (syncDevicesFromCloud devices t2 f2 (syncDevicesFromCloud devices t1 f1 S)).map eraseDevTime
      = (syncDevicesFromCloud devices t1 f1 S).map eraseDevTime := by
  have hstable := syncDevicesFromCloud_stable devices t1 f1 S hN
  have hup := devPass2_erase t2 (syncDevicesFromCloud devices t1 f1 S) devices hstable
    (syncDevicesFromCloud devices t1 f1 S) f2 rfl
  have heq : syncDevicesFromCloud devices t2 f2 (syncDevicesFromCloud devices t1 f1 S)
      = ((devApplyItems ((syncDevicesFromCloud devices t1 f1 S).map (·.deviceCode)) t2
          (syncDevicesFromCloud devices t1 f1 S, f2) devices).1).filter
        (fun x => (devices.map (·.deviceCode)).contains x.deviceCode) := rfl
  rw [heq]
  have hkeep : ∀ x ∈ (devApplyItems ((syncDevicesFromCloud devices t1 f1 S).map (·.deviceCode)) t2
      (syncDevicesFromCloud devices t1 f1 S, f2) devices).1,
      (devices.map (·.deviceCode)).contains x.deviceCode = true := by
    intro x hx
    have hcode : x.deviceCode ∈ ((devApplyItems ((syncDevicesFromCloud devices t1 f1 S).map
        (·.deviceCode)) t2 (syncDevicesFromCloud devices t1 f1 S, f2) devices).1).map
          (·.deviceCode) := List.mem_map.mpr ⟨x, hx, rfl⟩
    have hmapcodes : ((devApplyItems ((syncDevicesFromCloud devices t1 f1 S).map (·.deviceCode)) t2
        (syncDevicesFromCloud devices t1 f1 S, f2) devices).1).map (·.deviceCode)
        = (syncDevicesFromCloud devices t1 f1 S).map (·.deviceCode) := by
      have h1 := congrArg (List.map (fun r : LocalDevice => r.deviceCode)) hup
      simpa [List.map_map, Function.comp] using h1
    rw [hmapcodes] at hcode
    obtain ⟨y, hy, hyc⟩ := List.mem_map.mp hcode
    have hyk : (devices.map (·.deviceCode)).contains y.deviceCode = true := by
      have hy2 : y ∈ ((devApplyItems (S.map (·.deviceCode)) t1 (S, f1) devices).1).filter
          (fun x => (devices.map (·.deviceCode)).contains x.deviceCode) := hy
      exact (List.mem_filter.mp hy2).2
    rw [← hyc]
    exact hyk
  rw [List.filter_eq_self.mpr hkeep]
  exact hup

/-! ## Student reconciler (`syncStudents` / `upsertStudent` of the students
service) -/

/-- Row of the `local_students` table (entity `LocalStudent`); `updatedAt` is
an `@UpdateDateColumn`, refreshed on every save. -/
structure LocalStudent where
  id : Nat
  studentCode : String
  firstName : Option String
  lastName : Option String
  grade : Option String
  age : Option Int
  metadata : Option String
  status : String
  synced : Bool
  cachedAt : Int
  updatedAt : Int
deriving DecidableEq

/-- The `StudentSyncData` record taken by `syncStudents`; `metadata` models
the already-serialized JSON payload (`undefined` when absent). -/
structure StudentSyncData where
  studentCode : String
  firstName : Option String
  lastName : Option String
  grade : Option String
  age : Option Int
  metadata : Option String
  status : String
deriving DecidableEq

/-- The `findOne({ where: { studentCode } })` predicate. -/
def byStuCode (code : String) (r : LocalStudent) : Bool := r.studentCode == code

/-- Field assignments shared by both branches of `upsertStudent`
(`x || undefined` collapses falsy inputs; `updatedAt` auto-refreshes). -/
def studentFields (i : StudentSyncData) (now : Int) (r : LocalStudent) : LocalStudent :=
  { r with firstName := jsUndefS i.firstName, lastName := jsUndefS i.lastName
           grade := jsUndefS i.grade, age := jsUndefInt i.age, metadata := i.metadata
           status := i.status, synced := true, updatedAt := now }

/-- Row built by the create branch of `upsertStudent`. -/
def newStudent (i : StudentSyncData) (nid : Nat) (now : Int) : LocalStudent :=
  studentFields i now
    { id := nid, studentCode := i.studentCode, firstName := none, lastName := none
      grade := none, age := none, metadata := none, status := "", synced := false
      cachedAt := now, updatedAt := now }

/-- The sequential `upsertStudent` loop: each item runs a fresh `findOne`
against the current table (unlike the device loop's snapshot membership). -/
def stuApplyItems (now : Int) :
    List LocalStudent × Nat → List StudentSyncData → List LocalStudent × Nat
  | acc, [] => acc
  | (cur, nid), i :: rest =>
      match cur.find? (byStuCode i.studentCode) with
      | some _ => stuApplyItems now
          (updateFirstBy (byStuCode i.studentCode) (studentFields i now) cur, nid) rest
      | none => stuApplyItems now (cur ++ [newStudent i nid now], nid + 1) rest

/-- Deactivation after the upserts: rows whose code is absent from the batch
and still `active` become `inactive`, `synced`, with the stamp refreshed.  The
source filters the pre-upsert snapshot; the upserts only touch rows carrying
incoming codes, so testing the current table is equivalent. -/
def deactivateMissing (incoming : List String) (now : Int) (r : LocalStudent) : LocalStudent :=
  if !(incoming.contains r.studentCode) && r.status == "active" then
    { r with status := "inactive", synced := true, updatedAt := now }
  else r

/-- `syncStudents`: upsert every incoming record, then soft-deactivate the
locally stored students missing from the batch. -/
def syncStudents (studentsData : List StudentSyncData) (now : Int) (freshBase : Nat)
    (S : List LocalStudent) : List LocalStudent :=
  let incoming := studentsData.map (·.studentCode)
  ((stuApplyItems now (S, freshBase) studentsData).1).map (deactivateMissing incoming now)

/-! ## Student reconciliation is idempotent up to the `updatedAt` stamp (C6) -/

/-- Erase the auto-stamped `updatedAt` column of a student row. -/
def eraseStuTime (r : LocalStudent) : LocalStudent := { r with updatedAt := 0 }

/-- A student row the incoming record's update leaves erased-unchanged. -/
def StuStable (i : StudentSyncData) (r : LocalStudent) : Prop :=
  r.firstName = jsUndefS i.firstName ∧ r.lastName = jsUndefS i.lastName ∧
  r.grade = jsUndefS i.grade ∧ r.age = jsUndefInt i.age ∧ r.metadata = i.metadata ∧
  r.status = i.status ∧ r.synced = true

theorem stuStable_fields (i : StudentSyncData) (now : Int) (r : LocalStudent) :
    StuStable i (studentFields i now r) :=
  ⟨rfl, rfl, rfl, rfl, rfl, rfl, rfl⟩

theorem eraseStuTime_update_of_stable (i : StudentSyncData) (now : Int) (r : LocalStudent)
    (h : StuStable i r) : eraseStuTime (studentFields i now r) = eraseStuTime r := by
  obtain ⟨h1, h2, h3, h4, h5, h6, h7⟩ := h
  cases r
  simp_all [eraseStuTime, studentFields]

theorem stuStable_of_erase_eq (i : StudentSyncData) (r r' : LocalStudent)
    (he : eraseStuTime r' = eraseStuTime r) (h : StuStable i r) : StuStable i r' := by
  cases r; cases r'
  simp_all [eraseStuTime, StuStable]

/-- Items whose code differs from `code` never disturb the first row found by
`byStuCode code` (frame property of the student upsert loop). -/
theorem stuApplyItems_find?_frame (now : Int) :
    ∀ (ds : List StudentSyncData) (cur : List LocalStudent) (nid : Nat) (code : String)
      (r : LocalStudent),
      (∀ i ∈ ds, i.studentCode ≠ code) →
      cur.find? (byStuCode code) = some r →
      ((stuApplyItems now (cur, nid) ds).1).find? (byStuCode code) = some r := by
  intro ds
  induction ds with
  | nil => intro cur nid code r _ h; exact h
  | cons i rest ih =>
      intro cur nid code r hne h
      unfold stuApplyItems
      cases hfind : cur.find? (byStuCode i.studentCode) with
      | some a =>
          refine ih _ _ code r (fun i' hi' => hne i' (List.mem_cons_of_mem _ hi')) ?_
          rw [find?_updateFirstBy_ne (byStuCode i.studentCode) (byStuCode code)
            (studentFields i now) ?_ cur]
          · exact h
          · intro x hx
            have hxc : x.studentCode = i.studentCode := by simpa [byStuCode] using hx
            have hic : ¬ i.studentCode = code := hne i (List.mem_cons_self _ _)
            exact ⟨by simp [byStuCode, hxc, hic], by simp [byStuCode, studentFields, hxc, hic]⟩
      | none =>
          exact ih _ _ code r (fun i' hi' => hne i' (List.mem_cons_of_mem _ hi'))
            (find?_append_some _ _ _ _ h)

/-- After the student upsert loop, every incoming record's code resolves to a
stable first-match row. -/
theorem stuApplyItems_stable (now : Int) :
    ∀ (ds : List StudentSyncData) (cur : List LocalStudent) (nid : Nat),
      (ds.map (·.studentCode)).Nodup →
      ∀ i ∈ ds, ∃ r,
        ((stuApplyItems now (cur, nid) ds).1).find? (byStuCode i.studentCode) = some r
          ∧ StuStable i r := by
  intro ds
  induction ds with
  | nil => intro cur nid _ i hi; simp at hi
  | cons i rest ih =>
      intro cur nid hN i' hi'
      have hNd : i.studentCode ∉ rest.map (·.studentCode) := by
        have := hN
        rw [List.map_cons, List.nodup_cons] at this
        exact this.1
      have hNr : (rest.map (·.studentCode)).Nodup := by
        have := hN
        rw [List.map_cons, List.nodup_cons] at this
        exact this.2
      unfold stuApplyItems
      cases hfind : cur.find? (byStuCode i.studentCode) with
      | some a =>
          have hup : (updateFirstBy (byStuCode i.studentCode) (studentFields i now)
              cur).find? (byStuCode i.studentCode) = some (studentFields i now a) :=
            find?_updateFirstBy_self (byStuCode i.studentCode) (studentFields i now)
              (fun x hx => by simpa [byStuCode, studentFields] using hx) cur a hfind
          rcases List.mem_cons.mp hi' with hii | hirest
          · rw [hii]
            refine ⟨studentFields i now a, ?_, stuStable_fields i now a⟩
            refine stuApplyItems_find?_frame now rest _ nid _ _
              (fun e he heq => hNd ?_) hup
            exact heq ▸ List.mem_map.mpr ⟨e, he, rfl⟩
          · exact ih _ nid hNr i' hirest
      | none =>
          have hnew : (cur ++ [newStudent i nid now]).find? (byStuCode i.studentCode)
              = some (newStudent i nid now) := by
            rw [find?_append_none _ _ _ hfind, List.find?_singleton,
              if_pos (by simp [byStuCode, newStudent, studentFields])]
          rcases List.mem_cons.mp hi' with hii | hirest
          · rw [hii]
            refine ⟨newStudent i nid now, ?_, stuStable_fields i now _⟩
            refine stuApplyItems_find?_frame now rest _ (nid + 1) _ _
              (fun e he heq => hNd ?_) hnew
            exact heq ▸ List.mem_map.mpr ⟨e, he, rfl⟩
          · exact ih _ (nid + 1) hNr i' hirest

/-- Mapping a function that is the identity on every `q`-row and preserves `q`
elsewhere leaves `find? q` untouched. -/
theorem find?_map_identity_on {α : Type} (g : α → α) (q : α → Bool) (l : List α)
    (hq : ∀ x, q (g x) = q x) (hid : ∀ x, q x = true → g x = x) :
    (l.map g).find? q = l.find? q := by
  induction l with
  | nil => rfl
  | cons a t ih =>
      rw [List.map_cons]
      by_cases hqa : q a
      · rw [List.find?_cons_of_pos _ (by rw [hq a]; exact hqa),
          List.find?_cons_of_pos _ hqa, hid a hqa]
      · rw [List.find?_cons_of_neg _ (by simp [hq a, hqa]),
          List.find?_cons_of_neg _ hqa, ih]

/-- After one full `syncStudents` run, every incoming record's code resolves
in the stored table to a stable first-match row. -/
theorem syncStudents_stable (students : List StudentSyncData) (now : Int) (freshBase : Nat)
    (S : List LocalStudent) (hN : (students.map (·.studentCode)).Nodup) :
    ∀ i ∈ students, ∃ r,
      (syncStudents students now freshBase S).find? (byStuCode i.studentCode) = some r
        ∧ StuStable i r := by
  intro i hi
  obtain ⟨r, hr, hst⟩ := stuApplyItems_stable now students S freshBase hN i hi
  refine ⟨r, ?_, hst⟩
  show (((stuApplyItems now (S, freshBase) students).1).map
      (deactivateMissing (students.map (·.studentCode)) now)).find? (byStuCode i.studentCode)
    = some r
  rw [find?_map_identity_on _ _ _ ?_ ?_]
  · exact hr
  · intro x
    unfold deactivateMissing
    by_cases hc : (!((students.map (·.studentCode)).contains x.studentCode)
        && x.status == "active") = true
    · rw [if_pos hc]; rfl
    · rw [if_neg hc]
  · intro x hx
    have hxc : x.studentCode = i.studentCode := by simpa [byStuCode] using hx
    have hmem : x.studentCode ∈ students.map (·.studentCode) := by
      rw [hxc]; exact List.mem_map.mpr ⟨i, hi, rfl⟩
    unfold deactivateMissing
    rw [if_neg (by simp [hmem])]

/-- Any row of a post-`syncStudents` table whose code is absent from the batch
is not `active` (it was just deactivated, or already was inactive). -/
theorem syncStudents_missing_not_active (students : List StudentSyncData) (now : Int)
    (freshBase : Nat) (S : List LocalStudent) :
    ∀ y ∈ syncStudents students now freshBase S,
      ¬ ((students.map (·.studentCode)).contains y.studentCode = true) →
      ¬ (y.status = "active") := by
  intro y hy hnc
  obtain ⟨z, _, hz⟩ := List.mem_map.mp hy
  by_cases hcond : (!((students.map (·.studentCode)).contains z.studentCode)
      && z.status == "active") = true
  · rw [← hz]
    unfold deactivateMissing
    rw [if_pos hcond]
    intro hst
    exact absurd hst (by simp)
  · rw [← hz]
    unfold deactivateMissing
    rw [if_neg hcond]
    intro hst
    apply hcond
    have hzc : z.studentCode = y.studentCode := by
      rw [← hz]
      unfold deactivateMissing
      rw [if_neg hcond]
    simp only [Bool.and_eq_true, Bool.not_eq_true', beq_iff_eq]
    constructor
    · rw [hzc]
      exact Bool.not_eq_true _ ▸ (by simpa using hnc)
    · exact hst

/-- Second-pass student upsert loop: every record re-applies onto its stable
first match, leaving the table erased-unchanged. -/
theorem stuPass2_erase (t2 : Int) (S1 : List LocalStudent) :
    ∀ (ds : List StudentSyncData),
      (∀ i ∈ ds, ∃ r, S1.find? (byStuCode i.studentCode) = some r ∧ StuStable i r) →
      ∀ (cur : List LocalStudent) (nid : Nat),
        cur.map eraseStuTime = S1.map eraseStuTime →
        ((stuApplyItems t2 (cur, nid) ds).1).map eraseStuTime = S1.map eraseStuTime := by
  intro ds
  induction ds with
  | nil => intro _ cur nid hcur; exact hcur
  | cons i rest ih =>
      intro hstable cur nid hcur
      obtain ⟨r, hfr, hst⟩ := hstable i (List.mem_cons_self _ _)
      have hqe : ∀ x, byStuCode i.studentCode x = byStuCode i.studentCode (eraseStuTime x) :=
        fun _ => rfl
      have hcong := find?_erase_congr eraseStuTime (byStuCode i.studentCode)
        (byStuCode i.studentCode) hqe hcur
      rw [hfr] at hcong
      obtain ⟨r', hr', her'⟩ := Option.map_eq_some'.mp hcong
      have hst' : StuStable i r' := stuStable_of_erase_eq i r r' her' hst
      unfold stuApplyItems
      rw [hr']
      refine ih (fun e he => hstable e (List.mem_cons_of_mem _ he)) _ nid ?_
      rw [map_updateFirstBy_eq (byStuCode i.studentCode) (studentFields i t2)
        eraseStuTime cur r' hr' (eraseStuTime_update_of_stable i t2 r' hst')]
      exact hcur

/-- Student part of C6: re-applying a batch with pairwise-distinct codes is
the identity on the stored table up to the auto-stamped `updatedAt`. -/
theorem syncStudents_idem (students : List StudentSyncData) (t1 t2 : Int)
    (f1 f2 : Nat) (S : List LocalStudent) (hN : (students.map (·.studentCode)).Nodup) :
    (syncStudents students t2 f2 (syncStudents students t1 f1 S)).map eraseStuTime
      = (syncStudents students t1 f1 S).map eraseStuTime := by
  have hstable := syncStudents_stable students t1 f1 S hN
  have hup := stuPass2_erase t2 (syncStudents students t1 f1 S) students hstable
    (syncStudents students t1 f1 S) f2 rfl
  have heq : syncStudents students t2 f2 (syncStudents students t1 f1 S)
      = ((stuApplyItems t2 (syncStudents students t1 f1 S, f2) students).1).map
        (deactivateMissing (students.map (·.studentCode)) t2) := rfl
  rw [heq]
  have hfix : ∀ x ∈ (stuApplyItems t2 (syncStudents students t1 f1 S, f2) students).1,
      deactivateMissing (students.map (·.studentCode)) t2 x = x := by
    intro x hx
    by_cases hmem : (students.map (·.studentCode)).contains x.studentCode = true
    · unfold deactivateMissing
      rw [if_neg (by simp only [hmem, Bool.not_true, Bool.false_and]; exact Bool.false_ne_true)]
    · have hex : eraseStuTime x ∈ ((stuApplyItems t2 (syncStudents students t1 f1 S, f2)
          students).1).map eraseStuTime := List.mem_map.mpr ⟨x, hx, rfl⟩
      rw [hup] at hex
      obtain ⟨y, hy, hye⟩ := List.mem_map.mp hex
      have hcode : y.studentCode = x.studentCode := by
        simpa [eraseStuTime] using congrArg LocalStudent.studentCode hye
      have hstatus : y.status = x.status := by
        simpa [eraseStuTime] using congrArg LocalStudent.status hye
      have hyn : ¬ ((students.map (·.studentCode)).contains y.studentCode = true) := by
        rw [hcode]; exact hmem
      have := syncStudents_missing_not_active students t1 f1 S y hy hyn
      unfold deactivateMissing
      rw [if_neg ?_]
      simp only [Bool.and_eq_true, Bool.not_eq_true', beq_iff_eq]
      intro hcontra
      exact this (hstatus ▸ hcontra.2)
  have hmapid : ((stuApplyItems t2 (syncStudents students t1 f1 S, f2) students).1).map
      (deactivateMissing (students.map (·.studentCode)) t2)
      = (stuApplyItems t2 (syncStudents students t1 f1 S, f2) students).1 :=
    (List.map_congr_left (fun a ha => hfix a ha)).trans (List.map_id _)
  rw [hmapid]
  exact hup

/-! ## Claim C6: idempotence of the three reconcilers -/

/-- C6 counterexample: re-applying the very same one-device batch is not the
identity on stored state — the second application (at a later instant)
refreshes the row's `updatedAt` stamp, so the stored state after the second
application differs from the state after the first. -/
theorem syncDevicesFromCloud_reapply_changes :
    syncDevicesFromCloud [demoCloudDevice] 1 1 (syncDevicesFromCloud [demoCloudDevice] 0 0 [])
      ≠ syncDevicesFromCloud [demoCloudDevice] 0 0 [] := by
  decide

/-- C6 (amended): for batches carrying at most one record per device/student
code and at most one content item per remote id, re-applying the batch
creates no rows and changes no stored field except the locally-stamped
`updatedAt` of device and student rows (refreshed on every save); content
rows — whose items must carry a remote `updatedAt` — are left fully
unchanged. -/
theorem reconcilers_idem :
    (∀ (b : List CloudContentItem) (t1 t2 : Int) (st : ContentBatchState),
      (∀ c ∈ b, c.id ≠ "" → ∃ u, c.updatedAt = some u) →
      (processBatch b t2 (processBatch b t1 st)).rows = (processBatch b t1 st).rows)
    ∧ (∀ (devices : List CloudDevice) (t1 t2 : Int) (f1 f2 : Nat) (S : List LocalDevice),
      (devices.map (·.deviceCode)).Nodup →
      (syncDevicesFromCloud devices t2 f2
          (syncDevicesFromCloud devices t1 f1 S)).map eraseDevTime
        = (syncDevicesFromCloud devices t1 f1 S).map eraseDevTime)
    ∧ (∀ (students : List StudentSyncData) (t1 t2 : Int) (f1 f2 : Nat) (S : List LocalStudent),
      (students.map (·.studentCode)).Nodup →
      (syncStudents students t2 f2 (syncStudents students t1 f1 S)).map eraseStuTime
        = (syncStudents students t1 f1 S).map eraseStuTime) :=
  ⟨fun b t1 t2 st h => processBatch_idem b t1 t2 st h,
   fun devices t1 t2 f1 f2 S hN => syncDevicesFromCloud_idem devices t1 t2 f1 f2 S hN,
   fun students t1 t2 f1 f2 S hN => syncStudents_idem students t1 t2 f1 f2 S hN⟩

/-- Witness for the amended C6 at a concrete one-device batch. -/
theorem reconcilers_idem_witness :
    (syncDevicesFromCloud [demoCloudDevice] 1 1
        (syncDevicesFromCloud [demoCloudDevice] 0 0 [])).map eraseDevTime
      = (syncDevicesFromCloud [demoCloudDevice] 0 0 []).map eraseDevTime :=
  reconcilers_idem.2.1 [demoCloudDevice] 0 1 0 1 [] (by decide)

end EdgeHub
